import Mathlib

/-!
Shallow embedding of the incremental reconciliation and storage subsystem of
the YoutubeRSSMaker repository (`feed_storage.py` and `incremental_updater.py`).

Timestamps are modelled as natural numbers: the code stores ISO-8601 UTC
strings and compares them lexicographically, which on the uniform format it
produces agrees with chronological order.  The SQLite tables `feeds` and
`videos` are modelled as lists of rows; `INSERT OR REPLACE` on the primary
key removes any row with the same key and appends the fresh row.
-/

namespace YoutubeRSS

/-! ### Duration codecs

`FeedStorage._iso8601_duration_to_seconds` parses a duration with the anchored
regex `P(\d+Y)?(\d+M)?(\d+W)?(\d+D)?(T(\d+H)?(\d+M)?(\d+S)?)?` and sums the
week/day/hour/minute/second parts (years and months are ignored); a
non-matching string yields 0.  Each optional component is greedy digits
followed by its letter, and is skipped when the letter does not follow, which
coincides with the regex on this grammar.
-/

/-- Decimal digit character for a value below 10, as produced by Python
string formatting of an integer. -/
def digitChar : Nat → Char
  | 0 => '0'
  | 1 => '1'
  | 2 => '2'
  | 3 => '3'
  | 4 => '4'
  | 5 => '5'
  | 6 => '6'
  | 7 => '7'
  | 8 => '8'
  | 9 => '9'
  | _ => '*'

/-- Numeric value of a decimal digit character. -/
def digitVal (c : Char) : Nat := c.toNat - 48

def natToDigitsGo : Nat → List Char → List Char
  | 0, acc => acc
  | n + 1, acc => natToDigitsGo ((n + 1) / 10) (digitChar ((n + 1) % 10) :: acc)
decreasing_by exact Nat.div_lt_self (Nat.succ_pos n) (by decide)

/-- Decimal representation of a natural number, most significant digit
first, as produced by Python `f"{n}"` formatting. -/
def natToDigits (n : Nat) : List Char :=
  if n = 0 then ['0'] else natToDigitsGo n []

def parseDigitsAux : List Char → Nat → Nat × List Char
  | [], acc => (acc, [])
  | c :: cs, acc =>
    if c.isDigit then parseDigitsAux cs (acc * 10 + digitVal c) else (acc, c :: cs)

/-- Greedy parse of a nonempty run of decimal digits (the regex atom
`\d+`); `none` when the input does not start with a digit. -/
def parseDigits : List Char → Option (Nat × List Char)
  | [] => none
  | c :: cs => if c.isDigit then some (parseDigitsAux cs (digitVal c)) else none

/-- One optional duration component `(\d+X)?` of the regex: greedy digits
followed by the marker letter; when the letter does not follow, the
component is skipped and the input is left untouched. -/
def parseComp (letter : Char) (s : List Char) : Nat × List Char :=
  match parseDigits s with
  | some (n, r) =>
    match r with
    | c :: r2 => if c = letter then (n, r2) else (0, s)
    | [] => (0, s)
  | none => (0, s)

/-- Embedding of `FeedStorage._iso8601_duration_to_seconds` on the character
list of the input string. -/
def iso8601DurationToSecondsList (s : List Char) : Nat :=
  match s with
  | 'P' :: rest =>
    let y := parseComp 'Y' rest
    let mo := parseComp 'M' y.2
    let w := parseComp 'W' mo.2
    let d := parseComp 'D' w.2
    let hms : Nat × Nat × Nat × List Char :=
      match d.2 with
      | 'T' :: rt =>
        let h := parseComp 'H' rt
        let mi := parseComp 'M' h.2
        let se := parseComp 'S' mi.2
        (h.1, mi.1, se.1, se.2)
      | other => (0, 0, 0, other)
    if hms.2.2.2 = [] then
      w.1 * 7 * 24 * 3600 + d.1 * 24 * 3600 + hms.1 * 3600 + hms.2.1 * 60 + hms.2.2.1
    else 0
  | _ => 0

/-- Embedding of `FeedStorage._iso8601_duration_to_seconds`. -/
def iso8601_duration_to_seconds (s : String) : Nat :=
  iso8601DurationToSecondsList s.data

/-- Embedding of `IncrementalFeedUpdater._seconds_to_iso8601`: zero (the
code also maps negative input here) gives `"PT0S"`; otherwise `"PT"`
followed by the nonzero hour/minute components and the seconds component,
the latter emitted when nonzero or when both others are absent. -/
def seconds_to_iso8601 (seconds : Nat) : String :=
  if seconds = 0 then "PT0S"
  else
    let hours := seconds / 3600
    let minutes := (seconds % 3600) / 60
    let secs := seconds % 60
    let d1 := if hours > 0 then natToDigits hours ++ ['H'] else []
    let d2 := if minutes > 0 then natToDigits minutes ++ ['M'] else []
    let d3 := if secs > 0 ∨ (hours = 0 ∧ minutes = 0) then natToDigits secs ++ ['S'] else []
    String.mk ('P' :: 'T' :: (d1 ++ d2 ++ d3))

/-! ### Thumbnails -/

/-- The fixed quality preference order of `_get_best_thumbnail_url`. -/
def thumbnailOrder : List String := ["maxres", "standard", "high", "medium", "default"]

/-- Embedding of `FeedStorage._get_best_thumbnail_url`.  The `thumbnails`
dict is an association list in insertion order; an entry's missing `url`
key is the `none` value. -/
def get_best_thumbnail_url (thumbs : List (String × Option String)) : String :=
  match thumbs with
  | [] => ""
  | (_, t0) :: _ =>
    match thumbnailOrder.find? (fun k => thumbs.any (fun p => p.1 == k)) with
    | some k =>
      match thumbs.find? (fun p => p.1 == k) with
      | some p => p.2.getD ""
      | none => ""
    | none => t0.getD ""

/-! ### Data model -/

/-- A row of the `videos` table. -/
structure VideoRow where
  video_id : String
  channel_id : String
  title : String
  description : String
  published_at : Nat
  duration_seconds : Nat
  view_count : Option Nat
  like_count : Option Nat
  thumbnail_url : String
  captions : Option String
  first_seen : Nat
deriving DecidableEq

/-- A row of the `feeds` table.  The JSON `feed_config` text is kept
opaque. -/
structure FeedRow where
  channel_id : String
  channel_identifier : String
  channel_title : String
  last_updated : Nat
  last_video_count : Nat
  feed_config : String
  user_id : String
  api_key : Option String
  query_count : Nat
  last_queried : Option Nat
deriving DecidableEq

/-- The SQLite database state: the `feeds` and `videos` tables. -/
structure DB where
  feeds : List FeedRow
  videos : List VideoRow
deriving DecidableEq

/-- One element of the `videos` list handed to `store_videos`: the fields
the code reads out of the raw API dict.  `publishedAt` is the parsed
`snippet.publishedAt` timestamp, `none` when `datetime.fromisoformat`
raises and the code falls back to `now`. -/
structure VideoInput where
  id : String
  title : String
  description : String
  publishedAt : Option Nat
  duration : String
  viewCount : Option Nat
  likeCount : Option Nat
  thumbnails : List (String × Option String)
  captions : Option String
deriving DecidableEq

def findVideo? (db : DB) (id : String) : Option VideoRow :=
  db.videos.find? (fun r => r.video_id == id)

def findFeed? (db : DB) (channel_id : String) : Option FeedRow :=
  db.feeds.find? (fun f => f.channel_id == channel_id)

/-! ### FeedStorage.store_videos -/

/-- The row written by the `INSERT OR REPLACE` in `store_videos` for one
input item. -/
def videoRowOf (channel_id : String) (now first_seen : Nat) (v : VideoInput) : VideoRow :=
  { video_id := v.id
    channel_id := channel_id
    title := v.title
    description := v.description
    published_at := v.publishedAt.getD now
    duration_seconds := iso8601_duration_to_seconds v.duration
    view_count := v.viewCount
    like_count := v.likeCount
    thumbnail_url := get_best_thumbnail_url v.thumbnails
    captions := v.captions
    first_seen := first_seen }

/-- One iteration of the `for video in videos` loop of `store_videos`:
look the id up, count it as new and stamp `first_seen = now` when absent,
keep the stored `first_seen` when present, then `INSERT OR REPLACE` the
row. -/
def storeVideo (channel_id : String) (now : Nat) : Nat × DB → VideoInput → Nat × DB :=
  fun st v =>
    let first_seen_new :=
      match findVideo? st.2 v.id with
      | none => (st.1 + 1, now)
      | some r0 => (st.1, r0.first_seen)
    let row := videoRowOf channel_id now first_seen_new.2 v
    (first_seen_new.1,
     { st.2 with videos := st.2.videos.filter (fun r => r.video_id != v.id) ++ [row] })

/-- Embedding of `FeedStorage.store_videos`: process the batch in order,
then recompute the channel's total count and write `last_updated = now`
and `last_video_count` onto its feed row.  Returns
`((new_count, total_count), database after the call)`. -/
def store_videos (db : DB) (channel_id : String) (videos : List VideoInput) (now : Nat) :
    (Nat × Nat) × DB :=
  let st := videos.foldl (storeVideo channel_id now) (0, db)
  let total_count := ((st.2).videos.filter (fun r => r.channel_id == channel_id)).length
  let feeds := (st.2).feeds.map (fun f =>
    if f.channel_id == channel_id then
      { f with last_updated := now, last_video_count := total_count }
    else f)
  ((st.1, total_count), { feeds := feeds, videos := (st.2).videos })

/-- A sequence of `store_videos` calls for one channel, each with its batch
and its call timestamp. -/
def reconcileAll (db : DB) (channel_id : String) (calls : List (List VideoInput × Nat)) : DB :=
  calls.foldl (fun d c => (store_videos d channel_id c.1 c.2).2) db

/-! ### FeedStorage.get_feed -/

/-- The `UPDATE feeds SET query_count = query_count + 1, last_queried = ?`
statement applied to one row. -/
def touchFeed (now : Nat) (channel_id : String) (f : FeedRow) : FeedRow :=
  if f.channel_id == channel_id then
    { f with query_count := f.query_count + 1, last_queried := some now }
  else f

/-- Embedding of `FeedStorage.get_feed`.  When the row exists and
`increment_counter` is true, the counter row is updated in place and the
record handed back carries `query_count = row.query_count + 1` and
`last_queried = now` (the code computes `(row[8] or 0) + 1`). -/
def get_feed (db : DB) (channel_id : String) (increment_counter : Bool) (now : Nat) :
    Option FeedRow × DB :=
  match findFeed? db channel_id with
  | none => (none, db)
  | some row =>
    if increment_counter then
      (some { row with query_count := row.query_count + 1, last_queried := some now },
       { db with feeds := db.feeds.map (touchFeed now channel_id) })
    else (some row, db)

/-! ### FeedStorage.get_videos_since -/

/-- The `ORDER BY published_at DESC` order. -/
def videoDescOrder (a b : VideoRow) : Prop := b.published_at ≤ a.published_at

instance : DecidableRel videoDescOrder := fun _ _ => Nat.decLe _ _

instance : IsTotal VideoRow videoDescOrder :=
  ⟨fun a b => Nat.le_total b.published_at a.published_at⟩

instance : IsTrans VideoRow videoDescOrder :=
  ⟨fun _ _ _ h1 h2 => Nat.le_trans h2 h1⟩

/-- Embedding of `FeedStorage.get_videos_since`: the channel's rows, those
with `published_at > since` when a cutoff is given, ordered by
`published_at` descending. -/
def get_videos_since (db : DB) (channel_id : String) (since : Option Nat) : List VideoRow :=
  let rows := match since with
    | some t => db.videos.filter (fun r => r.channel_id == channel_id && decide (t < r.published_at))
    | none => db.videos.filter (fun r => r.channel_id == channel_id)
  List.insertionSort videoDescOrder rows

/-! ### FeedStorage.cleanup_old_videos -/

/-- A UTC wall-clock instant, as the fields of a Python `datetime`. -/
structure UtcTime where
  year : Nat
  month : Nat
  day : Nat
  hour : Nat
  minute : Nat
  second : Nat
deriving DecidableEq

def isLeapYear (y : Nat) : Bool :=
  (y % 4 == 0 && y % 100 != 0) || (y % 400 == 0)

/-- Number of days of a month, the bound `datetime.replace(day=...)`
enforces. -/
def daysInMonth (y m : Nat) : Nat :=
  if m == 2 then (if isLeapYear y then 29 else 28)
  else if m == 4 || m == 6 || m == 9 || m == 11 then 30
  else 31

/-- Order-preserving encoding of a UTC instant as the natural-number
timestamp used throughout the model. -/
def timestampOf (t : UtcTime) : Nat :=
  ((((t.year * 13 + t.month) * 32 + t.day) * 24 + t.hour) * 60 + t.minute) * 60 + t.second

/-- The `DELETE FROM videos WHERE published_at < ?` statement of
`cleanup_old_videos` together with its `rowcount`: removes the items with
`published_at` strictly below the cutoff across all channels and returns
how many were removed. -/
def purge_videos_older_than (db : DB) (cutoff : Nat) : Nat × DB :=
  ((db.videos.filter (fun r => decide (r.published_at < cutoff))).length,
   { db with videos := db.videos.filter (fun r => !decide (r.published_at < cutoff)) })

/-- Embedding of `FeedStorage.cleanup_old_videos`: truncate `now` to
midnight, then compute the cutoff with `cutoff.replace(day=cutoff.day -
days)`.  `datetime.replace` raises `ValueError` unless the new day-of-month
lies in `1 ..= daysInMonth`, so the call fails — `Except.error`, nothing
deleted — exactly when `now.day - days` falls outside that range. -/
def cleanup_old_videos (db : DB) (now : UtcTime) (days : Int) : Except String (Nat × DB) :=
  let c0 : UtcTime := { now with hour := 0, minute := 0, second := 0 }
  let d : Int := (c0.day : Int) - days
  if 1 ≤ d ∧ d ≤ (daysInMonth c0.year c0.month : Int) then
    Except.ok (purge_videos_older_than db (timestampOf { c0 with day := d.toNat }))
  else
    Except.error "day is out of range for month"

/-! ### IncrementalFeedUpdater.generate_rss_from_storage (ordering part) -/

/-- The item-list pipeline of `generate_rss_from_storage`: look the feed up
(with the counter touch of `get_feed`), return `none` when it is absent,
else take all stored items (newest first), reverse them when
`oldest_first`, and truncate to the first `max_items` when that argument is
truthy and the list is longer. -/
def generate_rss_video_list (db : DB) (channel_id : String) (oldest_first : Bool)
    (max_items : Option Nat) (now : Nat) : Option (List VideoRow) :=
  match get_feed db channel_id true now with
  | (none, _) => none
  | (some _, db1) =>
    let videos := get_videos_since db1 channel_id none
    let videos := if oldest_first then videos.reverse else videos
    let videos :=
      match max_items with
      | some n => if n ≠ 0 ∧ n < videos.length then videos.take n else videos
      | none => videos
    some videos

/-! ## Generic list helpers -/

theorem find?_filter_of_imp {α : Type} (p q : α → Bool) (l : List α)
    (h : ∀ a, p a = true → q a = true) :
    List.find? p (List.filter q l) = List.find? p l := by
  induction l with
  | nil => rfl
  | cons a t ih =>
    by_cases hq : q a = true
    · rw [List.filter_cons, if_pos hq]
      cases hp : p a <;> simp [List.find?_cons, hp, ih]
    · have hp : p a = false := by
        cases hp : p a
        · rfl
        · exact absurd (h a hp) hq
      rw [List.filter_cons, if_neg hq]
      simp [List.find?_cons, hp, ih]

theorem find?_key_of_nodup {α : Type} (key : α → String) (l : List α) (r : α)
    (hn : (l.map key).Nodup) (hr : r ∈ l) :
    List.find? (fun x => key x == key r) l = some r := by
  induction l with
  | nil => cases hr
  | cons a t ih =>
    have hn2 : key a ∉ t.map key ∧ (t.map key).Nodup := by
      rw [List.map_cons] at hn
      exact List.nodup_cons.mp hn
    rcases List.mem_cons.mp hr with rfl | hrt
    · simp [List.find?_cons]
    · have hka : (key a == key r) = false := by
        have : key a ≠ key r := fun he => hn2.1 (he ▸ List.mem_map_of_mem key hrt)
        simpa using this
      simp [List.find?_cons, hka, ih hn2.2 hrt]

/-! ## Lemmas about one iteration of the store_videos loop -/

/-- The `first_seen` value the loop body picks for an item id: the stored
one when the id is already present, else the call timestamp. -/
def firstSeenAfter (now : Nat) (db : DB) (id : String) : Nat :=
  match findVideo? db id with
  | some r => r.first_seen
  | none => now

/-- The set of stored item ids. -/
def idsOf (db : DB) : Finset String := (db.videos.map VideoRow.video_id).toFinset

/-- The set of item ids of a batch. -/
def batchIds (B : List VideoInput) : Finset String := (B.map VideoInput.id).toFinset

theorem mem_idsOf (db : DB) (id : String) :
    id ∈ idsOf db ↔ ∃ r ∈ db.videos, r.video_id = id := by
  simp [idsOf, List.mem_toFinset, List.mem_map]

theorem isSome_findVideo? (db : DB) (id : String) :
    (findVideo? db id).isSome ↔ id ∈ idsOf db := by
  rw [mem_idsOf]
  simp [findVideo?, List.find?_isSome]

theorem storeVideo_feeds (c : String) (now : Nat) (st : Nat × DB) (v : VideoInput) :
    ((storeVideo c now st v).2).feeds = st.2.feeds := by
  unfold storeVideo
  cases findVideo? st.2 v.id <;> rfl

theorem storeVideo_videos (c : String) (now : Nat) (st : Nat × DB) (v : VideoInput) :
    ((storeVideo c now st v).2).videos
      = st.2.videos.filter (fun r => r.video_id != v.id)
        ++ [videoRowOf c now (firstSeenAfter now st.2 v.id) v] := by
  unfold storeVideo firstSeenAfter
  cases findVideo? st.2 v.id <;> rfl

theorem storeVideo_count (c : String) (now : Nat) (st : Nat × DB) (v : VideoInput) :
    (storeVideo c now st v).1
      = if (findVideo? st.2 v.id).isSome then st.1 else st.1 + 1 := by
  unfold storeVideo
  cases findVideo? st.2 v.id <;> rfl

theorem storeVideo_find_other (c : String) (now : Nat) (st : Nat × DB) (v : VideoInput)
    (id : String) (h : id ≠ v.id) :
    findVideo? (storeVideo c now st v).2 id = findVideo? st.2 id := by
  unfold findVideo?
  rw [storeVideo_videos, List.find?_append]
  have h1 : List.find? (fun r => r.video_id == id)
      [videoRowOf c now (firstSeenAfter now st.2 v.id) v] = none := by
    rw [List.find?_eq_none]
    intro x hx
    simp only [List.mem_singleton] at hx
    subst hx
    have h3 : v.id ≠ id := fun he => h he.symm
    simpa [videoRowOf] using h3
  rw [h1, Option.or_none]
  exact find?_filter_of_imp _ _ _ (by
    intro a ha
    have h2 : a.video_id = id := by simpa using ha
    have h3 : a.video_id ≠ v.id := by rw [h2]; exact h
    simpa using h3)

theorem storeVideo_find_self (c : String) (now : Nat) (st : Nat × DB) (v : VideoInput) :
    findVideo? (storeVideo c now st v).2 v.id
      = some (videoRowOf c now (firstSeenAfter now st.2 v.id) v) := by
  unfold findVideo?
  rw [storeVideo_videos, List.find?_append]
  have h1 : List.find? (fun r => r.video_id == v.id)
      (st.2.videos.filter (fun r => r.video_id != v.id)) = none := by
    rw [List.find?_eq_none]
    intro x hx
    have hq := (List.mem_filter.mp hx).2
    simpa using (by simpa using hq : x.video_id ≠ v.id)
  rw [h1, Option.none_or]
  simp [videoRowOf, List.find?_cons]

theorem storeVideo_ids (c : String) (now : Nat) (st : Nat × DB) (v : VideoInput) :
    idsOf (storeVideo c now st v).2 = insert v.id (idsOf st.2) := by
  ext x
  simp only [mem_idsOf, Finset.mem_insert]
  rw [show (storeVideo c now st v).2.videos
      = st.2.videos.filter (fun r => r.video_id != v.id)
        ++ [videoRowOf c now (firstSeenAfter now st.2 v.id) v] from storeVideo_videos ..]
  constructor
  · rintro ⟨r, hr, rfl⟩
    rcases List.mem_append.mp hr with hrl | hrr
    · exact Or.inr ⟨r, (List.mem_filter.mp hrl).1, rfl⟩
    · simp only [List.mem_singleton] at hrr
      subst hrr
      exact Or.inl rfl
  · rintro (rfl | ⟨r, hr, rfl⟩)
    · exact ⟨videoRowOf c now (firstSeenAfter now st.2 v.id) v,
        List.mem_append.mpr (Or.inr (by simp)), rfl⟩
    · by_cases hxy : r.video_id = v.id
      · exact ⟨videoRowOf c now (firstSeenAfter now st.2 v.id) v,
          List.mem_append.mpr (Or.inr (by simp)), hxy.symm ▸ rfl⟩
      · exact ⟨r, List.mem_append.mpr (Or.inl (List.mem_filter.mpr ⟨hr, by simpa using hxy⟩)),
          rfl⟩

/-! ## Lemmas about the whole batch loop of store_videos -/

theorem foldStore_feeds (c : String) (now : Nat) (B : List VideoInput) (st : Nat × DB) :
    ((B.foldl (storeVideo c now) st).2).feeds = st.2.feeds := by
  induction B generalizing st with
  | nil => rfl
  | cons v t ih => rw [List.foldl_cons, ih, storeVideo_feeds]

theorem foldStore_ids (c : String) (now : Nat) (B : List VideoInput) (st : Nat × DB) :
    idsOf ((B.foldl (storeVideo c now) st).2) = idsOf st.2 ∪ batchIds B := by
  induction B generalizing st with
  | nil =>
    simp [batchIds]
  | cons v t ih =>
    rw [List.foldl_cons, ih, storeVideo_ids]
    ext x
    simp only [Finset.mem_union, Finset.mem_insert, batchIds, List.map_cons,
      List.toFinset_cons, List.mem_toFinset]
    tauto

theorem foldStore_count (c : String) (now : Nat) (B : List VideoInput) (st : Nat × DB) :
    (B.foldl (storeVideo c now) st).1 = st.1 + (batchIds B \ idsOf st.2).card := by
  induction B generalizing st with
  | nil => simp [batchIds]
  | cons v t ih =>
    rw [List.foldl_cons, ih, storeVideo_ids, storeVideo_count]
    have hbc : batchIds (v :: t) = insert v.id (batchIds t) := by
      simp [batchIds, List.map_cons, List.toFinset_cons]
    by_cases hmem : v.id ∈ idsOf st.2
    · rw [if_pos ((isSome_findVideo? st.2 v.id).mpr hmem)]
      rw [Finset.insert_eq_self.mpr hmem, hbc, Finset.insert_sdiff_of_mem _ hmem]
    · rw [if_neg (by
        intro hs
        exact hmem ((isSome_findVideo? st.2 v.id).mp hs))]
      rw [hbc]
      have e1 : batchIds t \ insert v.id (idsOf st.2)
          = (batchIds t \ idsOf st.2).erase v.id := by
        ext x
        simp only [Finset.mem_sdiff, Finset.mem_erase, Finset.mem_insert]
        tauto
      have e2 : insert v.id (batchIds t) \ idsOf st.2
          = insert v.id (batchIds t \ idsOf st.2) := by
        ext x
        simp only [Finset.mem_sdiff, Finset.mem_insert]
        constructor
        · rintro ⟨rfl | hx, hnx⟩
          · exact Or.inl rfl
          · exact Or.inr ⟨hx, hnx⟩
        · rintro (rfl | ⟨hx, hnx⟩)
          · exact ⟨Or.inl rfl, hmem⟩
          · exact ⟨Or.inr hx, hnx⟩
      have e3 : insert v.id (batchIds t \ idsOf st.2)
          = insert v.id ((batchIds t \ idsOf st.2).erase v.id) := by
        ext x
        simp only [Finset.mem_insert, Finset.mem_erase]
        tauto
      rw [e1, e2, e3, Finset.card_insert_of_not_mem (by simp)]
      omega

theorem foldStore_find_other (c : String) (now : Nat) (B : List VideoInput) (st : Nat × DB)
    (id : String) (h : id ∉ B.map VideoInput.id) :
    findVideo? ((B.foldl (storeVideo c now) st).2) id = findVideo? st.2 id := by
  induction B generalizing st with
  | nil => rfl
  | cons v t ih =>
    rw [List.map_cons, List.mem_cons] at h
    push_neg at h
    rw [List.foldl_cons, ih _ h.2, storeVideo_find_other _ _ _ _ _ h.1]

theorem foldStore_find_mem (c : String) (now : Nat) (B : List VideoInput) (st : Nat × DB)
    (hnd : (B.map VideoInput.id).Nodup) :
    ∀ v ∈ B, findVideo? ((B.foldl (storeVideo c now) st).2) v.id
      = some (videoRowOf c now (firstSeenAfter now st.2 v.id) v) := by
  induction B generalizing st with
  | nil => intro v hv; cases hv
  | cons w t ih =>
    rw [List.map_cons] at hnd
    have hnd2 := List.nodup_cons.mp hnd
    intro v hv
    rcases List.mem_cons.mp hv with rfl | hvt
    · rw [List.foldl_cons, foldStore_find_other _ _ _ _ _ hnd2.1,
        storeVideo_find_self]
    · have hne : v.id ≠ w.id := by
        intro he
        exact hnd2.1 (he ▸ List.mem_map_of_mem VideoInput.id hvt)
      rw [List.foldl_cons, ih _ hnd2.2 v hvt]
      have : firstSeenAfter now (storeVideo c now st w).2 v.id
          = firstSeenAfter now st.2 v.id := by
        unfold firstSeenAfter
        rw [storeVideo_find_other _ _ _ _ _ hne]
      rw [this]

theorem foldStore_find_channel (c : String) (now : Nat) (B : List VideoInput)
    (st : Nat × DB) :
    ∀ id ∈ B.map VideoInput.id,
      Option.map VideoRow.channel_id (findVideo? ((B.foldl (storeVideo c now) st).2) id)
        = some c := by
  induction B generalizing st with
  | nil => intro id hid; cases hid
  | cons w t ih =>
    intro id hid
    rw [List.map_cons, List.mem_cons] at hid
    rcases hid with rfl | hidt
    · by_cases h2 : w.id ∈ t.map VideoInput.id
      · rw [List.foldl_cons]
        exact ih _ _ h2
      · rw [List.foldl_cons, foldStore_find_other _ _ _ _ _ h2, storeVideo_find_self]
        rfl
    · rw [List.foldl_cons]
      exact ih _ _ hidt

/-! ## Lemmas about store_videos as a whole -/

theorem store_videos_videos (db : DB) (c : String) (B : List VideoInput) (now : Nat) :
    ((store_videos db c B now).2).videos = ((B.foldl (storeVideo c now) (0, db)).2).videos :=
  rfl

theorem store_videos_new_count (db : DB) (c : String) (B : List VideoInput) (now : Nat) :
    ((store_videos db c B now).1).1 = (batchIds B \ idsOf db).card := by
  show (B.foldl (storeVideo c now) (0, db)).1 = _
  rw [foldStore_count]
  simp

theorem store_videos_ids (db : DB) (c : String) (B : List VideoInput) (now : Nat) :
    idsOf (store_videos db c B now).2 = idsOf db ∪ batchIds B := by
  have : idsOf (store_videos db c B now).2 = idsOf ((B.foldl (storeVideo c now) (0, db)).2) :=
    rfl
  rw [this, foldStore_ids]

theorem store_videos_feeds (db : DB) (c : String) (B : List VideoInput) (now : Nat) :
    ((store_videos db c B now).2).feeds
      = db.feeds.map (fun f =>
          if f.channel_id == c then
            { f with last_updated := now,
                     last_video_count := ((store_videos db c B now).1).2 }
          else f) := by
  conv_lhs => rw [show ((store_videos db c B now).2).feeds
    = ((B.foldl (storeVideo c now) (0, db)).2).feeds.map (fun f =>
        if f.channel_id == c then
          { f with last_updated := now,
                   last_video_count := ((store_videos db c B now).1).2 }
        else f) from rfl]
  rw [foldStore_feeds]

theorem store_videos_findFeed? (db : DB) (c2 c : String) (B : List VideoInput) (now : Nat) :
    findFeed? (store_videos db c B now).2 c2
      = Option.map (fun f =>
          if f.channel_id == c then
            { f with last_updated := now,
                     last_video_count := ((store_videos db c B now).1).2 }
          else f)
        (findFeed? db c2) := by
  unfold findFeed?
  rw [store_videos_feeds, List.find?_map]
  have hfun : ((fun f : FeedRow => f.channel_id == c2) ∘ (fun f =>
      if f.channel_id == c then
        { f with last_updated := now,
                 last_video_count := ((store_videos db c B now).1).2 }
      else f)) = fun f : FeedRow => f.channel_id == c2 := by
    funext f
    simp only [Function.comp]
    by_cases hf : f.channel_id == c <;> simp [hf]
  rw [hfun]

/-! ## Watermark helpers -/

/-- The stored watermark (`last_updated`, the spec's `last_reconciled_at`)
of a channel. -/
def feedWatermark (db : DB) (c : String) : Option Nat :=
  Option.map FeedRow.last_updated (findFeed? db c)

theorem store_videos_watermark_step (db : DB) (c : String) (B : List VideoInput)
    (now : Nat) (hreg : (findFeed? db c).isSome) :
    feedWatermark (store_videos db c B now).2 c = some now := by
  obtain ⟨f, hf⟩ := Option.isSome_iff_exists.mp hreg
  have hf2 : List.find? (fun g => g.channel_id == c) db.feeds = some f := hf
  have hc : (f.channel_id == c) = true :=
    List.find?_some (p := fun g : FeedRow => g.channel_id == c) hf2
  rw [feedWatermark, store_videos_findFeed?, hf]
  simp [show f.channel_id = c by simpa using hc]

theorem store_videos_preserves_feed (db : DB) (c2 c : String) (B : List VideoInput)
    (now : Nat) (hreg : (findFeed? db c2).isSome) :
    (findFeed? (store_videos db c B now).2 c2).isSome := by
  rw [store_videos_findFeed?]
  obtain ⟨f, hf⟩ := Option.isSome_iff_exists.mp hreg
  rw [hf]
  rfl

theorem reconcileAll_preserves_feed (db : DB) (c : String)
    (calls : List (List VideoInput × Nat)) (hreg : (findFeed? db c).isSome) :
    (findFeed? (reconcileAll db c calls) c).isSome := by
  induction calls generalizing db with
  | nil => exact hreg
  | cons p t ih =>
    exact ih _ (store_videos_preserves_feed db c c p.1 p.2 hreg)

theorem reconcileAll_append_one (db : DB) (c : String)
    (calls : List (List VideoInput × Nat)) (B : List VideoInput) (now : Nat) :
    reconcileAll db c (calls ++ [(B, now)])
      = (store_videos (reconcileAll db c calls) c B now).2 := by
  unfold reconcileAll
  rw [List.foldl_append]
  rfl

theorem reconcileAll_last_watermark (db : DB) (c : String)
    (calls : List (List VideoInput × Nat)) (B : List VideoInput) (now : Nat)
    (hreg : (findFeed? db c).isSome) :
    feedWatermark (reconcileAll db c (calls ++ [(B, now)])) c = some now := by
  rw [reconcileAll_append_one]
  exact store_videos_watermark_step _ c B now (reconcileAll_preserves_feed db c calls hreg)

/-! ## Claim theorems about store_videos -/

/-- Claim C1: when every item of the batch is already stored, `store_videos`
returns `new_count = 0`, keeps each item's stored `first_seen`, and
rewrites the mutable fields (title, description, stats, thumbnail) from
the new batch — the row after the call is exactly `videoRowOf` built from
the new input with the old `first_seen`. -/
theorem store_videos_idempotent (db : DB) (c : String) (B : List VideoInput) (now : Nat)
    (hnd : (B.map VideoInput.id).Nodup)
    (hex : ∀ v ∈ B, (findVideo? db v.id).isSome) :
    ((store_videos db c B now).1).1 = 0
    ∧ ∀ v ∈ B, ∃ r0 : VideoRow, findVideo? db v.id = some r0
        ∧ findVideo? (store_videos db c B now).2 v.id
            = some (videoRowOf c now r0.first_seen v) := by
  constructor
  · rw [store_videos_new_count, Finset.card_eq_zero, Finset.sdiff_eq_empty_iff_subset]
    intro x hx
    rw [batchIds, List.mem_toFinset, List.mem_map] at hx
    obtain ⟨v, hv, rfl⟩ := hx
    exact (isSome_findVideo? db v.id).mp (hex v hv)
  · intro v hv
    obtain ⟨r0, hr0⟩ := Option.isSome_iff_exists.mp (hex v hv)
    refine ⟨r0, hr0, ?_⟩
    have heq : findVideo? (store_videos db c B now).2 v.id
        = findVideo? ((B.foldl (storeVideo c now) (0, db)).2) v.id := rfl
    rw [heq, foldStore_find_mem c now B (0, db) hnd v hv]
    have hfs : firstSeenAfter now (0, db).2 v.id = r0.first_seen := by
      unfold firstSeenAfter
      rw [show findVideo? (0, db).2 v.id = some r0 from hr0]
    rw [hfs]

def dbEmpty : DB := { feeds := [], videos := [] }

def videoInputA : VideoInput :=
  { id := "vidA", title := "first title", description := "d1",
    publishedAt := some 100, duration := "PT1M", viewCount := some 5,
    likeCount := none, thumbnails := [("default", some "thumb-one")],
    captions := none }

def videoInputA2 : VideoInput :=
  { videoInputA with
    title := "second title"
    viewCount := some 9
    thumbnails := [("default", some "thumb-two")] }

def dbAfterA : DB := (store_videos dbEmpty "UC1" [videoInputA] 10).2

/-- Witness for C1 at a concrete two-call scenario. -/
theorem store_videos_idempotent_witness :
    ((store_videos dbAfterA "UC1" [videoInputA2] 20).1).1 = 0
    ∧ ∀ v ∈ [videoInputA2], ∃ r0 : VideoRow, findVideo? dbAfterA v.id = some r0
        ∧ findVideo? (store_videos dbAfterA "UC1" [videoInputA2] 20).2 v.id
            = some (videoRowOf "UC1" 20 r0.first_seen v) :=
  store_videos_idempotent dbAfterA "UC1" [videoInputA2] 20 (by decide) (by decide)

/-- Claim C2: with batch B1 stored first, a second call with batch B2 (whose ids
were not otherwise present) reports as new exactly the ids of B2 outside
B1. -/
theorem store_videos_dedup_count (db : DB) (c : String) (B1 B2 : List VideoInput)
    (t1 t2 : Nat) (h : ∀ v ∈ B2, findVideo? db v.id = none) :
    ((store_videos (store_videos db c B1 t1).2 c B2 t2).1).1
      = (batchIds B2 \ batchIds B1).card := by
  rw [store_videos_new_count, store_videos_ids]
  congr 1
  have hdisj : ∀ x ∈ batchIds B2, x ∉ idsOf db := by
    intro x hx hmem
    rw [batchIds, List.mem_toFinset, List.mem_map] at hx
    obtain ⟨v, hv, rfl⟩ := hx
    have h1 := (isSome_findVideo? db v.id).mpr hmem
    rw [h v hv] at h1
    cases h1
  ext x
  simp only [Finset.mem_sdiff, Finset.mem_union]
  constructor
  · rintro ⟨hx, hnx⟩
    exact ⟨hx, fun h1 => hnx (Or.inr h1)⟩
  · rintro ⟨hx, hnx⟩
    refine ⟨hx, ?_⟩
    rintro (hdb | hb1)
    · exact hdisj x hx hdb
    · exact hnx hb1

def videoInputB : VideoInput :=
  { id := "vidB", title := "b", description := "",
    publishedAt := some 200, duration := "PT2M", viewCount := none,
    likeCount := none, thumbnails := [], captions := none }

def videoInputB2 : VideoInput :=
  { videoInputB with viewCount := some 3 }

def videoInputD : VideoInput :=
  { id := "vidD", title := "d", description := "",
    publishedAt := some 400, duration := "PT4M", viewCount := none,
    likeCount := none, thumbnails := [], captions := none }

/-- Witness for C2: B1 = [A, B], B2 = [B with changed stats, D]; the second
call reports exactly one new item. -/
theorem store_videos_dedup_count_witness :
    ((store_videos (store_videos dbEmpty "UC1" [videoInputA, videoInputB] 10).2
        "UC1" [videoInputB2, videoInputD] 20).1).1
      = (batchIds [videoInputB2, videoInputD] \ batchIds [videoInputA, videoInputB]).card :=
  store_videos_dedup_count dbEmpty "UC1" [videoInputA, videoInputB]
    [videoInputB2, videoInputD] 10 20 (by decide)

/-- Claim C3: for a registered channel, every `store_videos` call (also one with
zero new items) sets the watermark to that call's timestamp; hence after
any nonempty call sequence the watermark is the last call's timestamp, and
extending a sequence by calls with later timestamps never decreases it. -/
theorem store_videos_watermark (db : DB) (c : String)
    (hreg : (findFeed? db c).isSome) :
    (∀ B now, feedWatermark (store_videos db c B now).2 c = some now)
    ∧ (∀ calls B now,
        feedWatermark (reconcileAll db c (calls ++ [(B, now)])) c = some now)
    ∧ (∀ calls B now more, (∀ p ∈ more, now ≤ p.2) →
        ∀ w1 w2, feedWatermark (reconcileAll db c (calls ++ [(B, now)])) c = some w1 →
          feedWatermark (reconcileAll db c ((calls ++ [(B, now)]) ++ more)) c = some w2 →
          w1 ≤ w2) := by
  refine ⟨fun B now => store_videos_watermark_step db c B now hreg,
    fun calls B now => reconcileAll_last_watermark db c calls B now hreg, ?_⟩
  intro calls B now more hmore w1 w2 h1 h2
  have hw1 : w1 = now := by
    rw [reconcileAll_last_watermark db c calls B now hreg] at h1
    exact (Option.some_inj.mp h1).symm
  rcases List.eq_nil_or_concat more with rfl | ⟨L, p, rfl⟩
  · rw [List.append_nil] at h2
    rw [reconcileAll_last_watermark db c calls B now hreg] at h2
    have hw2 : w2 = now := (Option.some_inj.mp h2).symm
    rw [hw1, hw2]
  · have hre : (calls ++ [(B, now)]) ++ (L.concat p)
        = ((calls ++ [(B, now)]) ++ L) ++ [p] := by
      simp [List.concat_eq_append, List.append_assoc]
    rw [hre] at h2
    have hp : p ∈ L.concat p := by
      rw [List.concat_eq_append]
      exact List.mem_append.mpr (Or.inr (by simp))
    rcases p with ⟨Bp, tp⟩
    rw [reconcileAll_last_watermark db c _ Bp tp hreg] at h2
    have hw2 : w2 = tp := (Option.some_inj.mp h2).symm
    rw [hw1, hw2]
    exact hmore _ hp

def feedRowU1 : FeedRow :=
  { channel_id := "UC1", channel_identifier := "at-one", channel_title := "One",
    last_updated := 0, last_video_count := 0, feed_config := "", user_id := "DefaultUser",
    api_key := none, query_count := 0, last_queried := none }

def dbWithFeed : DB := { feeds := [feedRowU1], videos := [] }

/-- Witness for C3 at a concrete registered channel and call sequence. -/
theorem store_videos_watermark_witness :
    feedWatermark (store_videos dbWithFeed "UC1" [] 7).2 "UC1" = some 7
    ∧ feedWatermark
        (reconcileAll dbWithFeed "UC1" ([([videoInputA], 5)] ++ [([], 9)])) "UC1"
      = some 9 :=
  ⟨(store_videos_watermark dbWithFeed "UC1" (by decide)).1 [] 7,
   (store_videos_watermark dbWithFeed "UC1" (by decide)).2.1 [([videoInputA], 5)] [] 9⟩

/-! ## C5: item re-parenting -/

def rowV1 : VideoRow :=
  { video_id := "vid1", channel_id := "UC1", title := "t", description := "",
    published_at := 50, duration_seconds := 60, view_count := none, like_count := none,
    thumbnail_url := "", captions := none, first_seen := 50 }

def dbReparent : DB := { feeds := [], videos := [rowV1] }

def inputV1Again : VideoInput :=
  { id := "vid1", title := "t", description := "", publishedAt := some 50,
    duration := "PT1M", viewCount := none, likeCount := none, thumbnails := [],
    captions := none }

/-- Claim C5 counterexample: a batch for channel `UC2` containing the already
stored item `vid1` of channel `UC1` rewrites the stored `channel_id` to
`UC2`: the item is re-parented. -/
theorem store_videos_reparents :
    Option.map VideoRow.channel_id
        (findVideo? (store_videos dbReparent "UC2" [inputV1Again] 60).2 "vid1")
      = some "UC2"
    ∧ Option.map VideoRow.channel_id (findVideo? dbReparent "vid1") = some "UC1"
    ∧ ("UC2" : String) ≠ "UC1" := by decide

/-- Claim C5 amended: after a `store_videos` call the channel of a previously
stored item is the call's channel when the item's id occurs in the batch,
and is unchanged otherwise; in particular calls for the item's own channel
(or batches not containing it) never change it, while a call for a
different channel whose batch contains the id re-parents the item. -/
theorem store_videos_channel_assignment (db : DB) (c : String) (B : List VideoInput)
    (now : Nat) (hnd : (db.videos.map VideoRow.video_id).Nodup) :
    ∀ r ∈ db.videos,
      Option.map VideoRow.channel_id (findVideo? (store_videos db c B now).2 r.video_id)
        = some (if r.video_id ∈ B.map VideoInput.id then c else r.channel_id) := by
  intro r hr
  have heq : findVideo? (store_videos db c B now).2 r.video_id
      = findVideo? ((B.foldl (storeVideo c now) (0, db)).2) r.video_id := rfl
  by_cases hmem : r.video_id ∈ B.map VideoInput.id
  · rw [if_pos hmem, heq]
    exact foldStore_find_channel c now B (0, db) r.video_id hmem
  · rw [if_neg hmem, heq, foldStore_find_other _ _ _ _ _ hmem]
    have hfind : findVideo? (0, db).2 r.video_id = some r :=
      find?_key_of_nodup VideoRow.video_id db.videos r hnd hr
    rw [hfind]
    rfl

/-- Witness for the amended C5. -/
theorem store_videos_channel_assignment_witness :
    Option.map VideoRow.channel_id
        (findVideo? (store_videos dbReparent "UC1" [videoInputA] 70).2 rowV1.video_id)
      = some (if rowV1.video_id ∈ [videoInputA].map VideoInput.id then "UC1"
              else rowV1.channel_id) :=
  store_videos_channel_assignment dbReparent "UC1" [videoInputA] 70 (by decide)
    rowV1 (by decide)

/-! ## C4: the time-window query -/

theorem sorted_get_videos_since (db : DB) (c : String) (since : Option Nat) :
    List.Sorted videoDescOrder (get_videos_since db c since) := by
  unfold get_videos_since
  cases since <;> exact List.sorted_insertionSort videoDescOrder _

theorem mem_get_videos_since_some (db : DB) (c : String) (t : Nat) (v : VideoRow) :
    v ∈ get_videos_since db c (some t)
      ↔ v ∈ db.videos ∧ v.channel_id = c ∧ t < v.published_at := by
  unfold get_videos_since
  rw [(List.perm_insertionSort videoDescOrder _).mem_iff]
  simp [List.mem_filter, and_assoc]

theorem mem_get_videos_since_none (db : DB) (c : String) (v : VideoRow) :
    v ∈ get_videos_since db c none ↔ v ∈ db.videos ∧ v.channel_id = c := by
  unfold get_videos_since
  rw [(List.perm_insertionSort videoDescOrder _).mem_iff]
  simp [List.mem_filter]

/-- Claim C4: `get_videos_since` returns exactly the stored rows of the channel
above the cutoff (all of its rows when the cutoff is absent), never a row
of another channel, ordered by `published_at` descending. -/
theorem get_videos_since_spec (db : DB) (c : String) :
    (∀ t : Nat, ∀ v : VideoRow,
        v ∈ get_videos_since db c (some t)
          ↔ v ∈ db.videos ∧ v.channel_id = c ∧ t < v.published_at)
    ∧ (∀ v : VideoRow,
        v ∈ get_videos_since db c none ↔ v ∈ db.videos ∧ v.channel_id = c)
    ∧ (∀ since : Option Nat, List.Sorted videoDescOrder (get_videos_since db c since)) :=
  ⟨fun t v => mem_get_videos_since_some db c t v,
   fun v => mem_get_videos_since_none db c v,
   fun since => sorted_get_videos_since db c since⟩

/-! ## C6: the counter-touching read -/

/-- Claim C6 counterexample: on a feed whose stored `query_count` is 0, the record
`get_feed` returns under `increment_counter = true` carries `query_count = 1`,
the post-increment value, not the pre-increment one the claim describes. -/
theorem get_feed_returns_post_increment :
    Option.map FeedRow.query_count (get_feed dbWithFeed "UC1" true 5).1 = some 1
    ∧ Option.map FeedRow.query_count (findFeed? dbWithFeed "UC1") = some 0
    ∧ ¬ Option.map FeedRow.query_count (get_feed dbWithFeed "UC1" true 5).1
        = Option.map FeedRow.query_count (findFeed? dbWithFeed "UC1") := by decide

/-- Claim C6 amended: `get_feed` with `increment_counter = true` durably advances
the stored row to `query_count + 1` with `last_queried = now`, and the
record it returns shows that same post-increment state. -/
theorem get_feed_touch_spec (db : DB) (c : String) (now : Nat) (f : FeedRow)
    (h : findFeed? db c = some f) :
    (get_feed db c true now).1
      = some { f with query_count := f.query_count + 1, last_queried := some now }
    ∧ findFeed? (get_feed db c true now).2 c
      = some { f with query_count := f.query_count + 1, last_queried := some now } := by
  have hg : get_feed db c true now
      = (some { f with query_count := f.query_count + 1, last_queried := some now },
         { db with feeds := db.feeds.map (touchFeed now c) }) := by
    unfold get_feed
    rw [h]
    rfl
  refine ⟨by rw [hg], ?_⟩
  rw [hg]
  show List.find? _ (db.feeds.map (touchFeed now c)) = _
  rw [List.find?_map]
  have hfun : ((fun g : FeedRow => g.channel_id == c) ∘ touchFeed now c)
      = fun g : FeedRow => g.channel_id == c := by
    funext g
    simp only [Function.comp, touchFeed]
    by_cases hg2 : g.channel_id == c <;> simp [hg2]
  rw [hfun]
  rw [show List.find? (fun g : FeedRow => g.channel_id == c) db.feeds = some f from h]
  have hc : (f.channel_id == c) = true :=
    List.find?_some (p := fun g : FeedRow => g.channel_id == c) h
  simp [touchFeed, hc]

/-- Witness for the amended C6. -/
theorem get_feed_touch_spec_witness :
    (get_feed dbWithFeed "UC1" true 5).1
      = some { feedRowU1 with query_count := feedRowU1.query_count + 1, last_queried := some 5 }
    ∧ findFeed? (get_feed dbWithFeed "UC1" true 5).2 "UC1"
      = some { feedRowU1 with query_count := feedRowU1.query_count + 1, last_queried := some 5 } :=
  get_feed_touch_spec dbWithFeed "UC1" 5 feedRowU1 (by decide)

/-! ## C7: the retention purge -/

/-- Claim C7: the purge deletes exactly the rows with `published_at` strictly
below the cutoff across all channels (rows at the cutoff itself survive),
returns how many rows it removed, and leaves the feeds table untouched. -/
theorem purge_videos_older_than_spec (db : DB) (cutoff : Nat) :
    ((purge_videos_older_than db cutoff).1
        + ((purge_videos_older_than db cutoff).2).videos.length = db.videos.length)
    ∧ (∀ v : VideoRow, v ∈ ((purge_videos_older_than db cutoff).2).videos
        ↔ v ∈ db.videos ∧ cutoff ≤ v.published_at)
    ∧ ((purge_videos_older_than db cutoff).2).feeds = db.feeds := by
  refine ⟨?_, ?_, rfl⟩
  · exact (List.length_eq_length_filter_add
      (fun r : VideoRow => decide (r.published_at < cutoff))).symm
  · intro v
    show v ∈ db.videos.filter (fun r => !decide (r.published_at < cutoff)) ↔ _
    simp [List.mem_filter, Nat.not_lt]

/-! ## C10: partiality of the day-based cleanup -/

/-- Claim C10: `cleanup_old_videos` fails with the `datetime.replace` ValueError
whenever the requested day count is at least the current day of the month,
and can only succeed when it is strictly smaller. -/
theorem cleanup_old_videos_domain (db : DB) (now : UtcTime) (days : Int) :
    ((now.day : Int) ≤ days →
        cleanup_old_videos db now days = Except.error "day is out of range for month")
    ∧ (∀ res, cleanup_old_videos db now days = Except.ok res → days < (now.day : Int)) := by
  constructor
  · intro h
    unfold cleanup_old_videos
    dsimp only
    rw [if_neg]
    intro hc
    have h1 := hc.1
    omega
  · intro res hres
    unfold cleanup_old_videos at hres
    dsimp only at hres
    by_cases hcond : 1 ≤ (now.day : Int) - days
        ∧ (now.day : Int) - days ≤ (daysInMonth now.year now.month : Int)
    · omega
    · rw [if_neg hcond] at hres
      cases hres

def utcOct5 : UtcTime :=
  { year := 2025, month := 10, day := 5, hour := 12, minute := 30, second := 0 }

/-- Witness for C10: on October 5 a 7-day cleanup raises, while 2 days is
within the domain. -/
theorem cleanup_old_videos_domain_witness :
    cleanup_old_videos dbEmpty utcOct5 7 = Except.error "day is out of range for month"
    ∧ (2 : Int) < (utcOct5.day : Int) :=
  ⟨(cleanup_old_videos_domain dbEmpty utcOct5 7).1 (by decide),
   (cleanup_old_videos_domain dbEmpty utcOct5 2).2
     (0, { feeds := [], videos := [] }) (by rfl)⟩

/-! ## C8: feed-assembly ordering and cap -/

theorem get_feed_videos (db : DB) (c : String) (b : Bool) (now : Nat) :
    ((get_feed db c b now).2).videos = db.videos := by
  unfold get_feed
  cases findFeed? db c
  · rfl
  · cases b
    · rfl
    · rfl

/-- Claim C8: feed assembly orders oldest-first by reversing the newest-first
query result and truncates to the first N afterwards; on four stored
items with `oldest_first = true` and cap 2 it emits the two oldest items
in ascending published order. -/
theorem generate_rss_ordering (db : DB) (c : String) (now : Nat)
    (hreg : (findFeed? db c).isSome) :
    (∀ of : Bool, generate_rss_video_list db c of none now
        = some (if of then (get_videos_since db c none).reverse
                else get_videos_since db c none))
    ∧ (∀ of : Bool, ∀ n : Nat, n ≠ 0 →
        generate_rss_video_list db c of (some n) now
          = some ((if of then (get_videos_since db c none).reverse
                   else get_videos_since db c none).take n))
    ∧ (∀ v1 v2 v3 v4 : VideoRow, get_videos_since db c none = [v1, v2, v3, v4] →
        generate_rss_video_list db c true (some 2) now = some [v4, v3]
        ∧ v4.published_at ≤ v3.published_at ∧ v3.published_at ≤ v2.published_at
        ∧ v2.published_at ≤ v1.published_at) := by
  obtain ⟨f, hf⟩ := Option.isSome_iff_exists.mp hreg
  have hg : get_feed db c true now
      = (some { f with query_count := f.query_count + 1, last_queried := some now },
         { db with feeds := db.feeds.map (touchFeed now c) }) := by
    unfold get_feed
    rw [hf]
    rfl
  have hvids : get_videos_since { db with feeds := db.feeds.map (touchFeed now c) } c none
      = get_videos_since db c none := rfl
  have hnone : ∀ of : Bool, generate_rss_video_list db c of none now
      = some (if of then (get_videos_since db c none).reverse
              else get_videos_since db c none) := by
    intro of
    unfold generate_rss_video_list
    rw [hg]
    rfl
  have hsome : ∀ of : Bool, ∀ n : Nat, n ≠ 0 →
      generate_rss_video_list db c of (some n) now
        = some ((if of then (get_videos_since db c none).reverse
                 else get_videos_since db c none).take n) := by
    intro of n hn
    unfold generate_rss_video_list
    rw [hg]
    dsimp only
    rw [hvids]
    by_cases hlen : n < (if of then (get_videos_since db c none).reverse
        else get_videos_since db c none).length
    · rw [if_pos ⟨hn, hlen⟩]
    · rw [if_neg (by
        intro hc2
        exact hlen hc2.2)]
      rw [List.take_of_length_le (Nat.le_of_not_lt hlen)]
  refine ⟨hnone, hsome, ?_⟩
  intro v1 v2 v3 v4 hall
  have hs := sorted_get_videos_since db c none
  rw [hall] at hs
  simp only [List.sorted_cons, List.mem_cons, List.mem_singleton] at hs
  have h12 : videoDescOrder v1 v2 := hs.1 v2 (by simp)
  have h23 : videoDescOrder v2 v3 := hs.2.1 v3 (by simp)
  have h34 : videoDescOrder v3 v4 := hs.2.2.1 v4 (by simp)
  refine ⟨?_, h34, h23, h12⟩
  rw [hsome true 2 (by simp), hall]
  rfl

def rowW1 : VideoRow :=
  { video_id := "w1", channel_id := "UC1", title := "w1", description := "",
    published_at := 40, duration_seconds := 0, view_count := none, like_count := none,
    thumbnail_url := "", captions := none, first_seen := 40 }

def rowW2 : VideoRow := { rowW1 with video_id := "w2", title := "w2", published_at := 30 }

def rowW3 : VideoRow := { rowW1 with video_id := "w3", title := "w3", published_at := 20 }

def rowW4 : VideoRow := { rowW1 with video_id := "w4", title := "w4", published_at := 10 }

def db4 : DB := { feeds := [feedRowU1], videos := [rowW3, rowW1, rowW4, rowW2] }

/-- Witness for C8 on a concrete store of four items. -/
theorem generate_rss_ordering_witness :
    generate_rss_video_list db4 "UC1" true (some 2) 99 = some [rowW4, rowW3]
    ∧ rowW4.published_at ≤ rowW3.published_at
    ∧ rowW3.published_at ≤ rowW2.published_at
    ∧ rowW2.published_at ≤ rowW1.published_at :=
  (generate_rss_ordering db4 "UC1" 99 (by decide)).2.2 rowW1 rowW2 rowW3 rowW4 (by decide)

/-! ## C9: decimal digit printing and parsing lemmas -/

theorem digitChar_isDigit (d : Nat) (h : d < 10) : (digitChar d).isDigit = true := by
  interval_cases d <;> decide

theorem digitVal_digitChar (d : Nat) (h : d < 10) : digitVal (digitChar d) = d := by
  interval_cases d <;> decide

/-- Number of decimal digits emitted by `natToDigitsGo` (0 for the value
0, which emits none). -/
def digitCount : Nat → Nat
  | 0 => 0
  | n + 1 => digitCount ((n + 1) / 10) + 1
decreasing_by exact Nat.div_lt_self (Nat.succ_pos n) (by decide)

theorem natToDigitsGo_all_digits (n : Nat) :
    ∀ acc, (∀ c ∈ acc, c.isDigit = true) → ∀ c ∈ natToDigitsGo n acc, c.isDigit = true := by
  induction n using Nat.strong_induction_on with
  | _ n ih =>
    match n with
    | 0 =>
      intro acc hacc c hc
      rw [natToDigitsGo] at hc
      exact hacc c hc
    | m + 1 =>
      intro acc hacc c hc
      rw [natToDigitsGo] at hc
      refine ih ((m + 1) / 10) (Nat.div_lt_self (Nat.succ_pos m) (by decide)) _ ?_ c hc
      intro x hx
      rcases List.mem_cons.mp hx with rfl | hx2
      · exact digitChar_isDigit _ (Nat.mod_lt _ (by decide))
      · exact hacc x hx2

theorem natToDigitsGo_append (n : Nat) :
    ∀ acc, natToDigitsGo n acc = natToDigitsGo n [] ++ acc := by
  induction n using Nat.strong_induction_on with
  | _ n ih =>
    match n with
    | 0 =>
      intro acc
      rw [natToDigitsGo, natToDigitsGo]
      rfl
    | m + 1 =>
      intro acc
      have hlt : (m + 1) / 10 < m + 1 := Nat.div_lt_self (Nat.succ_pos m) (by decide)
      rw [natToDigitsGo, natToDigitsGo,
        ih ((m + 1) / 10) hlt (digitChar ((m + 1) % 10) :: acc),
        ih ((m + 1) / 10) hlt [digitChar ((m + 1) % 10)]]
      simp

theorem foldl_digits_go (n : Nat) :
    ∀ acc a, List.foldl (fun x c => x * 10 + digitVal c) a (natToDigitsGo n acc)
      = List.foldl (fun x c => x * 10 + digitVal c) (a * 10 ^ digitCount n + n) acc := by
  induction n using Nat.strong_induction_on with
  | _ n ih =>
    match n with
    | 0 =>
      intro acc a
      rw [natToDigitsGo, digitCount]
      simp
    | m + 1 =>
      intro acc a
      have hlt : (m + 1) / 10 < m + 1 := Nat.div_lt_self (Nat.succ_pos m) (by decide)
      rw [natToDigitsGo, digitCount, ih ((m + 1) / 10) hlt, List.foldl_cons]
      congr 1
      rw [digitVal_digitChar _ (Nat.mod_lt _ (by decide))]
      calc (a * 10 ^ digitCount ((m + 1) / 10) + (m + 1) / 10) * 10 + (m + 1) % 10
          = a * (10 ^ digitCount ((m + 1) / 10) * 10)
            + (10 * ((m + 1) / 10) + (m + 1) % 10) := by ring
        _ = a * (10 ^ digitCount ((m + 1) / 10) * 10) + (m + 1) := by
            rw [Nat.div_add_mod]
        _ = a * 10 ^ (digitCount ((m + 1) / 10) + 1) + (m + 1) := by
            rw [pow_succ]

theorem natToDigits_all_digits (n : Nat) : ∀ c ∈ natToDigits n, c.isDigit = true := by
  unfold natToDigits
  by_cases h : n = 0
  · rw [if_pos h]
    intro c hc
    simp only [List.mem_singleton] at hc
    subst hc
    decide
  · rw [if_neg h]
    exact natToDigitsGo_all_digits n [] (by intro c hc; cases hc)

theorem natToDigits_ne_nil (n : Nat) : natToDigits n ≠ [] := by
  unfold natToDigits
  by_cases h : n = 0
  · rw [if_pos h]
    simp
  · rw [if_neg h]
    match n, h with
    | m + 1, _ =>
      rw [natToDigitsGo, natToDigitsGo_append]
      simp

theorem foldl_natToDigits (n : Nat) :
    List.foldl (fun x c => x * 10 + digitVal c) 0 (natToDigits n) = n := by
  unfold natToDigits
  by_cases h : n = 0
  · rw [if_pos h, h]
    decide
  · rw [if_neg h, foldl_digits_go n [] 0]
    simp

/-- Input shape required after a greedy digit run: the remainder must not
begin with another digit. -/
def headNotDigit : List Char → Prop
  | [] => True
  | c :: _ => c.isDigit = false

theorem parseDigitsAux_digits (ds : List Char) :
    ∀ rest a, (∀ c ∈ ds, c.isDigit = true) → headNotDigit rest →
      parseDigitsAux (ds ++ rest) a
        = (List.foldl (fun x c => x * 10 + digitVal c) a ds, rest) := by
  induction ds with
  | nil =>
    intro rest a _ hrest
    match rest, hrest with
    | [], _ => rfl
    | c :: cs, hrest =>
      have hc : c.isDigit = false := hrest
      rw [List.nil_append]
      unfold parseDigitsAux
      rw [if_neg (by simp [hc])]
      rfl
  | cons d ds ih =>
    intro rest a hds hrest
    have hd := hds d (by simp)
    rw [List.cons_append]
    unfold parseDigitsAux
    rw [if_pos hd, ih rest _ (fun c hc => hds c (by simp [hc])) hrest, List.foldl_cons]

theorem parseDigits_natToDigits (n : Nat) (rest : List Char) (hrest : headNotDigit rest) :
    parseDigits (natToDigits n ++ rest) = some (n, rest) := by
  obtain ⟨d, ds, hds⟩ : ∃ d ds, natToDigits n = d :: ds := by
    cases hh : natToDigits n with
    | nil => exact absurd hh (natToDigits_ne_nil n)
    | cons d ds => exact ⟨d, ds, rfl⟩
  have hall := natToDigits_all_digits n
  have hd : d.isDigit = true := hall d (by rw [hds]; simp)
  have hds_digits : ∀ c ∈ ds, c.isDigit = true := fun c hc => hall c (by rw [hds]; simp [hc])
  rw [hds, List.cons_append]
  unfold parseDigits
  dsimp only
  rw [if_pos hd, parseDigitsAux_digits ds rest (digitVal d) hds_digits hrest]
  have hfold : List.foldl (fun x c => x * 10 + digitVal c) (digitVal d) ds
      = List.foldl (fun x c => x * 10 + digitVal c) 0 (natToDigits n) := by
    rw [hds, List.foldl_cons]
    norm_num
  rw [hfold, foldl_natToDigits]

theorem parseComp_hit (letter : Char) (n : Nat) (rest : List Char)
    (hl : letter.isDigit = false) :
    parseComp letter (natToDigits n ++ letter :: rest) = (n, rest) := by
  unfold parseComp
  rw [parseDigits_natToDigits n (letter :: rest) hl]
  simp

theorem parseComp_skip_head (letter c : Char) (s : List Char) (hc : c.isDigit = false) :
    parseComp letter (c :: s) = (0, c :: s) := by
  unfold parseComp parseDigits
  dsimp only
  rw [if_neg (by simp [hc])]

theorem parseComp_nil (letter : Char) : parseComp letter [] = (0, []) := rfl

theorem parseComp_wrong (letter c : Char) (n : Nat) (rest : List Char)
    (hc : c.isDigit = false) (hne : c ≠ letter) :
    parseComp letter (natToDigits n ++ c :: rest) = (0, natToDigits n ++ c :: rest) := by
  unfold parseComp
  rw [parseDigits_natToDigits n (c :: rest) hc]
  simp [hne]

/-- The T-section of a duration string as `seconds_to_iso8601` prints it
parses back to the same hour, minute and second values. -/
theorem parse_hms (h m sec : Nat) :
    iso8601DurationToSecondsList
      ('P' :: 'T' ::
        ((if h > 0 then natToDigits h ++ ['H'] else [])
          ++ (if m > 0 then natToDigits m ++ ['M'] else [])
          ++ (if sec > 0 ∨ (h = 0 ∧ m = 0) then natToDigits sec ++ ['S'] else [])))
      = h * 3600 + m * 60 + sec := by
  rw [iso8601DurationToSecondsList]
  dsimp only
  rw [parseComp_skip_head 'Y' 'T' _ (by decide)]
  dsimp only
  rw [parseComp_skip_head 'M' 'T' _ (by decide)]
  dsimp only
  rw [parseComp_skip_head 'W' 'T' _ (by decide)]
  dsimp only
  rw [parseComp_skip_head 'D' 'T' _ (by decide)]
  dsimp only
  by_cases hh : h = 0
  · rw [if_neg (by omega : ¬ h > 0)]
    by_cases hm : m = 0
    · rw [if_neg (by omega : ¬ m > 0), if_pos (Or.inr ⟨hh, hm⟩)]
      simp only [List.nil_append, List.append_assoc, List.singleton_append, List.cons_append]
      rw [parseComp_wrong 'H' 'S' sec _ (by decide) (by decide)]
      dsimp only
      rw [parseComp_wrong 'M' 'S' sec _ (by decide) (by decide)]
      dsimp only
      rw [parseComp_hit 'S' sec _ (by decide)]
      dsimp only
      simp [hh, hm]
    · rw [if_pos (Nat.pos_of_ne_zero hm)]
      by_cases hsec : sec = 0
      · rw [if_neg (show ¬(sec > 0 ∨ (h = 0 ∧ m = 0)) by
          rintro (hgt | ⟨h0, m0⟩)
          · omega
          · exact hm m0)]
        simp only [List.nil_append, List.append_assoc, List.singleton_append,
          List.cons_append, List.append_nil]
        rw [parseComp_wrong 'H' 'M' m _ (by decide) (by decide)]
        dsimp only
        rw [parseComp_hit 'M' m _ (by decide)]
        dsimp only
        rw [parseComp_nil]
        dsimp only
        simp [hh, hsec]
      · rw [if_pos (Or.inl (Nat.pos_of_ne_zero hsec))]
        simp only [List.nil_append, List.append_assoc, List.singleton_append, List.cons_append]
        rw [parseComp_wrong 'H' 'M' m _ (by decide) (by decide)]
        dsimp only
        rw [parseComp_hit 'M' m _ (by decide)]
        dsimp only
        rw [parseComp_hit 'S' sec _ (by decide)]
        dsimp only
        simp [hh]
  · rw [if_pos (Nat.pos_of_ne_zero hh)]
    by_cases hm : m = 0
    · rw [if_neg (by omega : ¬ m > 0)]
      by_cases hsec : sec = 0
      · rw [if_neg (show ¬(sec > 0 ∨ (h = 0 ∧ m = 0)) by
          rintro (hgt | ⟨h0, m0⟩)
          · omega
          · exact hh h0)]
        simp only [List.nil_append, List.append_assoc, List.singleton_append,
          List.cons_append, List.append_nil]
        rw [parseComp_hit 'H' h _ (by decide)]
        dsimp only
        rw [parseComp_nil]
        dsimp only
        rw [parseComp_nil]
        dsimp only
        simp [hm, hsec]
      · rw [if_pos (Or.inl (Nat.pos_of_ne_zero hsec))]
        simp only [List.nil_append, List.append_assoc, List.singleton_append, List.cons_append]
        rw [parseComp_hit 'H' h _ (by decide)]
        dsimp only
        rw [parseComp_wrong 'M' 'S' sec _ (by decide) (by decide)]
        dsimp only
        rw [parseComp_hit 'S' sec _ (by decide)]
        dsimp only
        simp [hm]
    · rw [if_pos (Nat.pos_of_ne_zero hm)]
      by_cases hsec : sec = 0
      · rw [if_neg (show ¬(sec > 0 ∨ (h = 0 ∧ m = 0)) by
          rintro (hgt | ⟨h0, m0⟩)
          · omega
          · exact hh h0)]
        simp only [List.nil_append, List.append_assoc, List.singleton_append, List.cons_append, List.append_nil]
        rw [parseComp_hit 'H' h _ (by decide)]
        dsimp only
        rw [parseComp_hit 'M' m _ (by decide)]
        dsimp only
        rw [parseComp_nil]
        dsimp only
        simp [hsec]
      · rw [if_pos (Or.inl (Nat.pos_of_ne_zero hsec))]
        simp only [List.nil_append, List.append_assoc, List.singleton_append, List.cons_append]
        rw [parseComp_hit 'H' h _ (by decide)]
        dsimp only
        rw [parseComp_hit 'M' m _ (by decide)]
        dsimp only
        rw [parseComp_hit 'S' sec _ (by decide)]
        dsimp only
        simp


/-- Claim C9: converting any nonnegative number of seconds to the structured
duration text and parsing it back yields the original value. -/
theorem duration_roundtrip (s : Nat) :
    iso8601_duration_to_seconds (seconds_to_iso8601 s) = s := by
  by_cases hs : s = 0
  · subst hs
    decide
  · have hmod : s % 3600 % 60 = s % 60 := Nat.mod_mod_of_dvd s (by norm_num)
    unfold seconds_to_iso8601
    rw [if_neg hs]
    unfold iso8601_duration_to_seconds
    dsimp only
    rw [parse_hms (s / 3600) (s % 3600 / 60) (s % 60)]
    have h1 := Nat.div_add_mod s 3600
    have h2 := Nat.div_add_mod (s % 3600) 60
    omega

end YoutubeRSS
